import Mathlib

/-!
# Shallow embedding of the skinmp balance-ledger and order-escrow core

This file embeds the core data model (`src/core/models.py`) and the mutating
operations of the marketplace — `process_deposit`
(`src/core/services/balance_service.py`) and the view-level mutations
`sell_item`, `cancel_listing`, `purchase_listing`, `order_detail`
(`src/core/views.py`) — as pure Lean functions over an explicit state, and
proves the spec's claims about them.

Monetary values (Django `DecimalField` with 8 decimal places) are modelled in
fixed point, as integer multiples of 10^-8 TON: the only arithmetic the core
performs on them is addition, subtraction and comparison, which are exact on
such decimals and correspond bit-for-bit to the same operations on the scaled
integers (the 20-digit storage cap is not modelled).  Database rows are
modelled as lists; a row id is
the index in the list.  User accounts are an association list from user id to
the two balance fields; a user absent from the list has both balances zero
(account creation happens in the authentication layer, outside this core, and
fresh accounts start at the default `Decimal('0.00')`).

Each operation is a pure function returning the committed new state on success
and an error on failure; Django's `transaction.atomic` blocks make the
intermediate states of the source invisible to other requests, so the
sequential function that produces only the committed end state is the faithful
sequential semantics.  Error constructors are named after the spec's error
taxonomy (§7); each constructor's doc comment in `MarketError` ties it to the
concrete code path (message / 404) it labels.
-/

/-- Status of a `SkinListing` (`SkinListing.STATUS_CHOICES` in models.py). -/
inductive LStatus where
  | ACTIVE
  | SOLD
  | CANCELLED
deriving DecidableEq

/-- Status of an `Order` (`Order.STATUS_CHOICES` in models.py): PAID, SENT,
COMPLETED, RELEASED, DISPUTED. -/
inductive OStatus where
  | PAID
  | SENT
  | COMPLETED
  | RELEASED
  | DISPUTED
deriving DecidableEq

/-- Status of a `Deposit` (`Deposit.STATUS_CHOICES` in models.py). -/
inductive DStatus where
  | PENDING
  | CONFIRMED
  | FAILED
  | CANCELLED
deriving DecidableEq

/-- The balance fields of `CustomUser` (models.py lines 15-28).  The identity
fields (steam id, trade url, ...) play no role in the ledger core and are not
modelled. -/
structure CustomUser where
  balance_active : ℤ
  balance_frozen : ℤ
deriving DecidableEq

/-- A `SkinListing` row (models.py lines 38-75): seller (user id), Steam asset
id, market name, price in TON, status. -/
structure SkinListing where
  seller : Nat
  asset_id : String
  market_name : String
  price_ton : ℤ
  status : LStatus
deriving DecidableEq

/-- An `Order` row (models.py lines 86-140): buyer and seller user ids, the
listing id, the amount snapshotted at purchase, status, and the optional
Steam trade id stored by `mark_sent`. -/
structure Order where
  buyer : Nat
  seller : Nat
  listing : Nat
  amount : ℤ
  status : OStatus
  steam_trade_id : Option String
deriving DecidableEq

/-- A `Deposit` row (models.py lines 151-191): user id, amount, blockchain
transaction hash, status, comment code. -/
structure Deposit where
  user : Nat
  amount : ℤ
  tx_hash : String
  status : DStatus
  comment_code : String
deriving DecidableEq

/-- The persistent state: the four tables of the core.  `users` is an
association list (user id, balances); ids absent from it denote fresh accounts
with both balances at the default 0. -/
structure MarketState where
  users : List (Nat × CustomUser)
  listings : List SkinListing
  orders : List Order
  deposits : List Deposit
deriving DecidableEq

/-- Read a user's balance row; an absent id is a fresh account with the
default zero balances. -/
def getUser (l : List (Nat × CustomUser)) (u : Nat) : CustomUser :=
  match l with
  | [] => ⟨0, 0⟩
  | (k, v) :: t => if k = u then v else getUser t u

/-- Write a user's balance row (`user.save(...)` on the locked row). -/
def setUser (l : List (Nat × CustomUser)) (u : Nat) (a : CustomUser) :
    List (Nat × CustomUser) :=
  match l with
  | [] => [(u, a)]
  | (k, v) :: t => if k = u then (k, a) :: t else (k, v) :: setUser t u a

/-- The spec's error taxonomy (§7), used as labels for the code's failure
paths:
* `InvalidInput` — `ValidationError` for a non-positive amount or empty
  tx hash in `process_deposit`; the `errors.append(... required ...)` /
  "Price must be greater than 0" paths of `sell_item`; the
  "Please provide the Steam Trade ID." branch of `order_detail`.
* `DuplicateTransaction` — "Transaction hash ... already exists" in
  `process_deposit`.
* `DuplicateActiveListing` — "This item is already listed for sale." in
  `sell_item`.
* `NotFound` — `get_object_or_404` raising 404 for a missing row.
* `ListingUnavailable` — `get_object_or_404(..., status='ACTIVE')` raising
  404 because the listing exists but is no longer ACTIVE.
* `SelfPurchase` — "You cannot purchase your own listing.".
* `InsufficientFunds` — "Insufficient balance ..." (both the advisory check
  and the re-check inside the transaction).
* `Forbidden` — "You don't have permission to view this order.".
* `InvalidState` — "Invalid status for this action.". -/
inductive MarketError where
  | InvalidInput
  | DuplicateTransaction
  | DuplicateActiveListing
  | NotFound
  | ListingUnavailable
  | SelfPurchase
  | InsufficientFunds
  | Forbidden
  | InvalidState
deriving DecidableEq

/-- Outcome of the `order_detail` POST handler: `ok` — a transaction
committed a new state; `err` — a `messages.error` was shown and nothing
changed; `silent` — the request fell through every action branch and the page
was re-rendered with no message and no change (this is what happens when the
caller/action pair matches no branch). -/
inductive Outcome where
  | ok : MarketState → Outcome
  | err : MarketError → Outcome
  | silent : Outcome
deriving DecidableEq

deriving instance DecidableEq for Except

/-- Python's `str.strip()`: drop leading and trailing whitespace.  (Defined
structurally over the character list so that it evaluates in the kernel; the
exact whitespace alphabet difference between Python and `Char.isWhitespace`
plays no role in any claim — only blank-vs-non-blank matters.) -/
def pyStrip (s : String) : String :=
  ⟨((s.data.dropWhile Char.isWhitespace).reverse.dropWhile Char.isWhitespace).reverse⟩

/-- `get_user_comment_code` (balance_service.py lines 75-85). -/
def get_user_comment_code (user_id : Nat) : String :=
  "user_" ++ toString user_id

/-- The comment code actually stored: the caller's code when given and
truthy, otherwise the generated `user_<id>` (balance_service.py lines 50-52;
Python's falsy test makes an empty string count as absent). -/
def depositCode (user_id : Nat) (comment_code : Option String) : String :=
  match comment_code with
  | none => get_user_comment_code user_id
  | some c => if c = "" then get_user_comment_code user_id else c

/-- The state committed by a successful `process_deposit`: the user's active
balance credited and one CONFIRMED deposit row appended. -/
def depositResult (s : MarketState) (user_id : Nat) (amount : ℤ)
    (tx_hash : String) (comment_code : Option String) : MarketState :=
  { s with
    users := (setUser s.users user_id
      { getUser s.users user_id with
        balance_active := (getUser s.users user_id).balance_active + amount }),
    deposits := s.deposits ++
      [⟨user_id, amount, tx_hash, .CONFIRMED, depositCode user_id comment_code⟩] }

/-- `process_deposit` (balance_service.py lines 11-72).  Checks, in source
order: amount > 0; tx_hash truthy and non-blank after strip; no existing
`Deposit` with the same `tx_hash` (any status).  On success it creates the
deposit (PENDING, then flipped to CONFIRMED inside the same transaction — only
the committed CONFIRMED row is observable) and credits the user's active
balance.  The user row always exists here (accounts are created by the
authentication layer; a fresh account has zero balances), so the
`CustomUser.DoesNotExist` path is not modelled. -/
def process_deposit (s : MarketState) (user_id : Nat) (amount : ℤ)
    (tx_hash : String) (comment_code : Option String) :
    Except MarketError MarketState :=
  if amount ≤ 0 then .error .InvalidInput
  else if tx_hash = "" ∨ pyStrip tx_hash = "" then .error .InvalidInput
  else if s.deposits.any (fun d => d.tx_hash = tx_hash) then
    .error .DuplicateTransaction
  else .ok (depositResult s user_id amount tx_hash comment_code)

/-- The validation errors `sell_item` collects for one POST, in source
order. -/
def sellErrors (s : MarketState) (seller : Nat) (asset_id market_name : String)
    (price : Option ℤ) : List MarketError :=
  (if asset_id = "" then [.InvalidInput] else []) ++
  (if market_name = "" then [.InvalidInput] else []) ++
  (match price with
    | none => [.InvalidInput]
    | some p => if p ≤ 0 then [.InvalidInput] else []) ++
  (if s.listings.any (fun l =>
      l.seller = seller ∧ l.asset_id = asset_id ∧ l.status = .ACTIVE) then
    [.DuplicateActiveListing] else [])

/-- The state committed by a successful `sell_item`: one new ACTIVE listing. -/
def sellResult (s : MarketState) (seller : Nat) (asset_id market_name : String)
    (p : ℤ) : MarketState :=
  { s with listings := (s.listings ++
    [⟨seller, asset_id, market_name, p, .ACTIVE⟩]) }

/-- The POST branch of `sell_item` (views.py lines 84-133).  The source parses
`price_ton` from the request string; a missing or unparsable price is modelled
as `none` (both only append an `InvalidInput` error).  The source collects all
validation errors in a list and creates the listing only when the list is
empty; the duplicate-ACTIVE check runs unconditionally. -/
def sell_item (s : MarketState) (seller : Nat) (asset_id market_name : String)
    (price : Option ℤ) : Except (List MarketError) MarketState :=
  let errs := sellErrors s seller asset_id market_name price
  if errs = [] then
    match price with
    | some p => .ok (sellResult s seller asset_id market_name p)
    | none => .error [.InvalidInput]  -- dead: a missing price puts an error in errs
  else .error errs

/-- The state committed by a successful `cancel_listing`. -/
def cancelResult (s : MarketState) (lid : Nat) (l : SkinListing) : MarketState :=
  { s with listings := s.listings.set lid ({ l with status := .CANCELLED }) }

/-- `cancel_listing` (views.py lines 323-335): `get_object_or_404` on
(id, seller=request.user, status='ACTIVE') — any mismatch is a 404 — then the
status is set to CANCELLED. -/
def cancel_listing (s : MarketState) (caller lid : Nat) :
    Except MarketError MarketState :=
  match s.listings[lid]? with
  | none => .error .NotFound
  | some l =>
    if l.seller = caller ∧ l.status = .ACTIVE then
      .ok (cancelResult s lid l)
    else .error .NotFound

/-- The state committed by a successful `purchase_listing`: buyer active
-= price, buyer frozen += price, one Order(PAID, amount=price) appended, and
the listing set to SOLD. -/
def purchaseResult (s : MarketState) (caller lid : Nat) (listing : SkinListing) :
    MarketState :=
  let buyer := getUser s.users caller
  { s with
    users := (setUser s.users caller
      { buyer with
        balance_active := buyer.balance_active - listing.price_ton,
        balance_frozen := buyer.balance_frozen + listing.price_ton }),
    orders := (s.orders ++
      [⟨caller, listing.seller, lid, listing.price_ton, .PAID, none⟩]),
    listings := s.listings.set lid { listing with status := .SOLD } }

/-- `purchase_listing` (views.py lines 246-300).  `get_object_or_404(...,
status='ACTIVE')`: a missing id is `NotFound`, an existing but non-ACTIVE
listing is `ListingUnavailable` (the same 404 in the source; the status-lost
case is the one the spec names).  Then, in source order: self-purchase check,
advisory balance check, and inside `transaction.atomic` the re-fetch of the
ACTIVE listing and the balance re-check under lock — in this sequential
semantics the rechecks see the same state. -/
def purchase_listing (s : MarketState) (caller lid : Nat) :
    Except MarketError MarketState :=
  match s.listings[lid]? with
  | none => .error .NotFound
  | some listing =>
    if listing.status ≠ .ACTIVE then .error .ListingUnavailable
    else if listing.seller = caller then .error .SelfPurchase
    else if (getUser s.users caller).balance_active < listing.price_ton then
      .error .InsufficientFunds
    else .ok (purchaseResult s caller lid listing)

/-- The state committed by a successful `mark_sent`: the order's status set
to SENT and the stripped trade id stored, nothing else touched. -/
def markSentResult (s : MarketState) (oid : Nat) (o : Order) (tid : String) :
    MarketState :=
  { s with orders := (s.orders.set oid
    { o with status := .SENT, steam_trade_id := some tid }) }

/-- The state committed by a successful `confirm_received`: `order.amount`
leaves the buyer's frozen balance, enters the seller's active balance (the
buyer row is saved first, then the seller row, as in the source), and the
order becomes COMPLETED. -/
def confirmResult (s : MarketState) (oid : Nat) (o : Order) : MarketState :=
  let users1 := setUser s.users o.buyer
    { getUser s.users o.buyer with
      balance_frozen := (getUser s.users o.buyer).balance_frozen - o.amount }
  let users2 := setUser users1 o.seller
    { getUser users1 o.seller with
      balance_active := (getUser users1 o.seller).balance_active + o.amount }
  { s with
    users := users2,
    orders := s.orders.set oid ({ o with status := .COMPLETED }) }

/-- The POST branch of `order_detail` (views.py lines 365-443).  Source
structure: 404 on a missing order; the permission redirect when the caller is
neither buyer nor seller; then `if is_seller and action == 'mark_sent'`,
`elif is_buyer and action == 'confirm_received'`, and any other caller/action
pair falls through to the render with no message (`Outcome.silent`).
`mark_sent` requires status PAID and a non-blank (stripped) trade id and
stores the stripped id; `confirm_received` requires status SENT and moves
`order.amount` from the buyer's frozen balance to the seller's active balance
while setting the status to COMPLETED, in one transaction.  The in-lock
status rechecks see the same state in this sequential semantics. -/
def order_detail (s : MarketState) (caller oid : Nat) (action tid_raw : String) :
    Outcome :=
  match s.orders[oid]? with
  | none => .err .NotFound
  | some o =>
    if o.buyer ≠ caller ∧ o.seller ≠ caller then .err .Forbidden
    else if o.seller = caller ∧ action = "mark_sent" then
      if o.status = .PAID then
        if pyStrip tid_raw = "" then .err .InvalidInput
        else .ok (markSentResult s oid o (pyStrip tid_raw))
      else .err .InvalidState
    else if o.buyer = caller ∧ action = "confirm_received" then
      if o.status = .SENT then .ok (confirmResult s oid o)
      else .err .InvalidState
    else .silent

/-- The operations of the core, as invoked by one request each. -/
inductive Op where
  | deposit (user_id : Nat) (amount : ℤ) (tx_hash : String)
      (comment_code : Option String)
  | createListing (seller : Nat) (asset_id market_name : String)
      (price : Option ℤ)
  | cancelL (caller lid : Nat)
  | purchase (caller lid : Nat)
  | orderAct (caller oid : Nat) (action tid : String)

/-- The committed state change of one operation: `some s'` when the request
committed a transaction, `none` when it failed or fell through (the state is
then unchanged). -/
def applyOp (op : Op) (s : MarketState) : Option MarketState :=
  match op with
  | .deposit u a h c => (process_deposit s u a h c).toOption
  | .createListing se a m p => (sell_item s se a m p).toOption
  | .cancelL c l => (cancel_listing s c l).toOption
  | .purchase c l => (purchase_listing s c l).toOption
  | .orderAct c o act t =>
      match order_detail s c o act t with
      | .ok s' => some s'
      | _ => none

/-- One state-changing step: some operation committed. -/
def Step (s s' : MarketState) : Prop := ∃ op, applyOp op s = some s'

/-- The initial state: no rows, every account at the default zero balances. -/
def initState : MarketState := ⟨[], [], [], []⟩

/-- States reachable from the initial state by the core operations. -/
def Reachable (s : MarketState) : Prop :=
  Relation.ReflTransGen Step initState s

/-- The contribution of one order to its buyer's frozen balance: an order that
is still open (PAID or SENT) holds its `amount` in the buyer's escrow. -/
def contrib (u : Nat) (o : Order) : ℤ :=
  if o.buyer = u ∧ (o.status = .PAID ∨ o.status = .SENT) then o.amount else 0

/-- Total amount held in escrow against user `u` by the open orders. -/
def openSum (l : List Order) (u : Nat) : ℤ :=
  (l.map (contrib u)).sum

/-- An account's total holdings: active plus frozen balance. -/
def hold (s : MarketState) (u : Nat) : ℤ :=
  (getUser s.users u).balance_active + (getUser s.users u).balance_frozen

/-- The state invariant maintained by every core operation:
active balances are non-negative; every frozen balance is exactly the sum of
the amounts of that buyer's open (PAID or SENT) orders; every listing price
and order amount is positive; order statuses never leave the
PAID / SENT / COMPLETED chain (RELEASED and DISPUTED are dead choices); and at
most one ACTIVE listing exists per (seller, asset_id) pair. -/
structure MarketInv (s : MarketState) : Prop where
  active_nonneg : ∀ u, 0 ≤ (getUser s.users u).balance_active
  frozen_eq : ∀ u, (getUser s.users u).balance_frozen = openSum s.orders u
  price_pos : ∀ l ∈ s.listings, 0 < l.price_ton
  amount_pos : ∀ o ∈ s.orders, 0 < o.amount
  status_ok : ∀ o ∈ s.orders,
    o.status = .PAID ∨ o.status = .SENT ∨ o.status = .COMPLETED
  unique_active : ∀ (i j : Nat) (li lj : SkinListing), s.listings[i]? = some li →
    s.listings[j]? = some lj → li.status = .ACTIVE → lj.status = .ACTIVE →
    li.seller = lj.seller → li.asset_id = lj.asset_id → i = j

/-- After `ProcessDeposit(1, 10, "tx1")` from the initial state. -/
def demoA : MarketState :=
  ⟨[(1, ⟨10, 0⟩)], [], [], [⟨1, 10, "tx1", .CONFIRMED, "user_1"⟩]⟩

/-- After user 2 lists item "a1" at price 7. -/
def demoB : MarketState :=
  ⟨[(1, ⟨10, 0⟩)], [⟨2, "a1", "AK Redline", 7, .ACTIVE⟩], [],
   [⟨1, 10, "tx1", .CONFIRMED, "user_1"⟩]⟩

/-- After user 1 purchases listing 0: 7 frozen, order PAID. -/
def demoC : MarketState :=
  ⟨[(1, ⟨3, 7⟩)], [⟨2, "a1", "AK Redline", 7, .SOLD⟩],
   [⟨1, 2, 0, 7, .PAID, none⟩], [⟨1, 10, "tx1", .CONFIRMED, "user_1"⟩]⟩

/-- After seller 2 marks the order sent with trade id "t9". -/
def demoD : MarketState :=
  ⟨[(1, ⟨3, 7⟩)], [⟨2, "a1", "AK Redline", 7, .SOLD⟩],
   [⟨1, 2, 0, 7, .SENT, some "t9"⟩], [⟨1, 10, "tx1", .CONFIRMED, "user_1"⟩]⟩

/-- After buyer 1 confirms receipt: escrow released to seller 2. -/
def demoE : MarketState :=
  ⟨[(1, ⟨3, 0⟩), (2, ⟨7, 0⟩)], [⟨2, "a1", "AK Redline", 7, .SOLD⟩],
   [⟨1, 2, 0, 7, .COMPLETED, some "t9"⟩], [⟨1, 10, "tx1", .CONFIRMED, "user_1"⟩]⟩

/-- A state with buyer 3 holding exactly the listing price. -/
def demoExact : MarketState :=
  ⟨[(3, ⟨7, 0⟩)], [⟨2, "a1", "AK Redline", 7, .ACTIVE⟩], [], []⟩

/-- Modelled from the spec (§4.4): a `RaiseDispute(caller, orderId)` operation
family such that, on every order in SENT whose caller is its buyer or seller,
invoking it commits a state in which that order is DISPUTED.  The repository's
views expose no such request; this definition exists to state the claim. -/
def RaiseDisputeSpec (f : Nat → Nat → Op) : Prop :=
  ∀ (s : MarketState) (oid : Nat) (o : Order) (caller : Nat),
    s.orders[oid]? = some o → o.status = .SENT →
    (caller = o.buyer ∨ caller = o.seller) →
    ∃ s' o', applyOp (f caller oid) s = some s' ∧
      s'.orders[oid]? = some o' ∧ o'.status = .DISPUTED

/-! ## Lemmas and claim theorems -/

theorem getUser_setUser (l : List (Nat × CustomUser)) (u : Nat) (a : CustomUser)
    (v : Nat) : getUser (setUser l u a) v = if v = u then a else getUser l v := by
  induction l with
  | nil =>
    simp only [setUser, getUser]
    by_cases h : u = v
    · subst h; simp
    · rw [if_neg h, if_neg (fun hv => h hv.symm)]
  | cons p t ih =>
    obtain ⟨k, w⟩ := p
    by_cases hk : k = u
    · subst hk
      simp only [setUser, if_pos rfl, getUser]
      by_cases hv : k = v
      · subst hv; simp
      · rw [if_neg hv, if_neg (fun hv2 => hv hv2.symm), if_neg hv]
    · simp only [setUser, if_neg hk, getUser, ih]
      by_cases hv : k = v
      · subst hv; simp [hk]
      · simp [hv]

theorem except_toOption_ok {ε α : Type} {e : Except ε α} {x : α}
    (h : e.toOption = some x) : e = .ok x := by
  cases e with
  | ok a => simpa [Except.toOption] using h
  | error b => simp [Except.toOption] at h

theorem openSum_append (l : List Order) (o : Order) (u : Nat) :
    openSum (l ++ [o]) u = openSum l u + contrib u o := by
  simp [openSum]

theorem map_sum_set (f : Order → ℤ) :
    ∀ (l : List Order) (i : Nat) (o oi : Order), l[i]? = some oi →
      ((l.set i o).map f).sum = (l.map f).sum - f oi + f o := by
  intro l
  induction l with
  | nil => intro i o oi h; simp at h
  | cons hd t ih =>
    intro i o oi h
    cases i with
    | zero =>
      simp only [List.getElem?_cons_zero, Option.some_inj] at h
      subst h
      simp only [List.set, List.map_cons, List.sum_cons]
      ring
    | succ n =>
      simp only [List.getElem?_cons_succ] at h
      simp only [List.set, List.map_cons, List.sum_cons]
      rw [ih n o oi h]
      ring

theorem openSum_set (l : List Order) (i : Nat) (o oi : Order) (u : Nat)
    (h : l[i]? = some oi) :
    openSum (l.set i o) u = openSum l u - contrib u oi + contrib u o :=
  map_sum_set (contrib u) l i o oi h

theorem contrib_nonneg {u : Nat} {o : Order} (h : 0 ≤ o.amount) :
    0 ≤ contrib u o := by
  unfold contrib; split <;> [exact h; exact le_refl 0]

theorem openSum_nonneg {l : List Order} (h : ∀ o ∈ l, 0 < o.amount) (u : Nat) :
    0 ≤ openSum l u := by
  refine List.sum_nonneg ?_
  intro x hx
  obtain ⟨o, ho, rfl⟩ := List.mem_map.mp hx
  exact contrib_nonneg (le_of_lt (h o ho))

theorem inv_frozen_nonneg {s : MarketState} (hs : MarketInv s) (u : Nat) :
    0 ≤ (getUser s.users u).balance_frozen := by
  rw [hs.frozen_eq]
  exact openSum_nonneg hs.amount_pos u

theorem process_deposit_ok_iff {s : MarketState} {u : Nat} {a : ℤ} {h : String}
    {c : Option String} {s' : MarketState} :
    process_deposit s u a h c = .ok s' ↔
      ¬ a ≤ 0 ∧ ¬ (h = "" ∨ pyStrip h = "") ∧
      ¬ s.deposits.any (fun d => d.tx_hash = h) ∧
      s' = depositResult s u a h c := by
  constructor
  · intro H
    unfold process_deposit at H
    split_ifs at H with h1 h2 h3
    exact ⟨h1, h2, h3, (Except.ok.inj H).symm⟩
  · rintro ⟨h1, h2, h3, rfl⟩
    unfold process_deposit
    rw [if_neg h1, if_neg h2, if_neg h3]

theorem cancel_listing_ok_iff {s : MarketState} {caller lid : Nat}
    {l : SkinListing} {s' : MarketState} (hlook : s.listings[lid]? = some l) :
    cancel_listing s caller lid = .ok s' ↔
      l.seller = caller ∧ l.status = .ACTIVE ∧ s' = cancelResult s lid l := by
  constructor
  · intro H
    simp only [cancel_listing, hlook] at H
    split_ifs at H with h1
    exact ⟨h1.1, h1.2, (Except.ok.inj H).symm⟩
  · rintro ⟨h1, h2, rfl⟩
    simp only [cancel_listing, hlook]
    rw [if_pos ⟨h1, h2⟩]

theorem purchase_listing_ok_iff {s : MarketState} {caller lid : Nat}
    {listing : SkinListing} {s' : MarketState}
    (hlook : s.listings[lid]? = some listing) :
    purchase_listing s caller lid = .ok s' ↔
      listing.status = .ACTIVE ∧ ¬ listing.seller = caller ∧
      ¬ (getUser s.users caller).balance_active < listing.price_ton ∧
      s' = purchaseResult s caller lid listing := by
  constructor
  · intro H
    simp only [purchase_listing, hlook] at H
    split_ifs at H with h1 h2 h3
    exact ⟨not_not.mp h1, h2, h3, (Except.ok.inj H).symm⟩
  · rintro ⟨h1, h2, h3, rfl⟩
    simp only [purchase_listing, hlook]
    rw [if_neg (not_not.mpr h1), if_neg h2, if_neg h3]

theorem sell_item_ok_iff {s : MarketState} {seller : Nat}
    {asset_id market_name : String} {price : Option ℤ} {s' : MarketState} :
    sell_item s seller asset_id market_name price = .ok s' ↔
      ∃ p, price = some p ∧
        sellErrors s seller asset_id market_name price = [] ∧
        s' = sellResult s seller asset_id market_name p := by
  constructor
  · intro H
    simp only [sell_item] at H
    split_ifs at H with h1
    cases price with
    | none => cases H
    | some p => exact ⟨p, rfl, h1, (Except.ok.inj H).symm⟩
  · rintro ⟨p, hp, herrs, rfl⟩
    subst hp
    simp only [sell_item, herrs]
    rw [if_pos trivial]

theorem order_detail_ok_cases {s : MarketState} {caller oid : Nat}
    {action tid : String} {s' : MarketState}
    (H : order_detail s caller oid action tid = .ok s') :
    ∃ o, s.orders[oid]? = some o ∧
      ((o.seller = caller ∧ action = "mark_sent" ∧ o.status = .PAID ∧
          ¬ pyStrip tid = "" ∧ s' = markSentResult s oid o (pyStrip tid)) ∨
       (o.buyer = caller ∧ action = "confirm_received" ∧ o.status = .SENT ∧
          s' = confirmResult s oid o)) := by
  cases hlook : s.orders[oid]? with
  | none => simp only [order_detail, hlook] at H; cases H
  | some o =>
    simp only [order_detail, hlook] at H
    refine ⟨o, rfl, ?_⟩
    split_ifs at H with h1 h2 h3 h4 h5 h6
    · exact .inl ⟨h2.1, h2.2, h3, h4, (Outcome.ok.inj H).symm⟩
    · exact .inr ⟨h5.1, h5.2, h6, (Outcome.ok.inj H).symm⟩

theorem getElem?_append_single {α : Type} (l : List α) (x : α) (i : Nat) :
    (l ++ [x])[i]? = if i < l.length then l[i]?
      else if i = l.length then some x else none := by
  rw [List.getElem?_append]
  by_cases h1 : i < l.length
  · rw [if_pos h1, if_pos h1]
  · rw [if_neg h1, if_neg h1]
    by_cases h2 : i = l.length
    · subst h2; simp
    · rw [if_neg h2]
      exact List.getElem?_eq_none (by simp; omega)

theorem mem_iff_getElem?_ex {α : Type} {a : α} {l : List α} :
    a ∈ l ↔ ∃ i : Nat, l[i]? = some a := by
  rw [List.mem_iff_getElem?]

theorem sellErrors_nil {s : MarketState} {seller : Nat}
    {asset_id market_name : String} {p : ℤ}
    (h : sellErrors s seller asset_id market_name (some p) = []) :
    ¬ asset_id = "" ∧ ¬ market_name = "" ∧ ¬ p ≤ 0 ∧
    ¬ s.listings.any (fun l =>
        l.seller = seller ∧ l.asset_id = asset_id ∧ l.status = .ACTIVE) := by
  unfold sellErrors at h
  simp only [List.append_eq_nil] at h
  obtain ⟨⟨⟨h1, h2⟩, h3⟩, h4⟩ := h
  refine ⟨?_, ?_, ?_, ?_⟩
  · intro hc; rw [if_pos hc] at h1; cases h1
  · intro hc; rw [if_pos hc] at h2; cases h2
  · intro hc; rw [if_pos hc] at h3; cases h3
  · intro hc; rw [if_pos hc] at h4; cases h4

theorem inv_depositResult {s : MarketState} {u : Nat} {a : ℤ} {h : String}
    {c : Option String} (hs : MarketInv s) (ha : 0 < a) :
    MarketInv (depositResult s u a h c) := by
  obtain ⟨hact, hfro, hpr, ham, hst, huniq⟩ := hs
  refine ⟨?_, ?_, ?_, ?_, ?_, ?_⟩ <;> simp only [depositResult]
  · intro v
    rw [getUser_setUser]
    split
    · simp only []
      exact add_nonneg (hact u) ha.le
    · exact hact v
  · intro v
    rw [getUser_setUser]
    split
    · next hv => simp only []; rw [hv]; exact hfro u
    · exact hfro v
  · exact hpr
  · exact ham
  · exact hst
  · exact huniq

theorem inv_sellResult {s : MarketState} {seller : Nat}
    {asset_id market_name : String} {p : ℤ} (hs : MarketInv s)
    (herrs : sellErrors s seller asset_id market_name (some p) = []) :
    MarketInv (sellResult s seller asset_id market_name p) := by
  obtain ⟨-, -, hp, hdup⟩ := sellErrors_nil herrs
  obtain ⟨hact, hfro, hpr, ham, hst, huniq⟩ := hs
  have hnodup : ∀ l ∈ s.listings,
      ¬ (l.seller = seller ∧ l.asset_id = asset_id ∧ l.status = LStatus.ACTIVE) := by
    intro l hl hcontra
    apply hdup
    rw [List.any_eq_true]
    exact ⟨l, hl, by simp [hcontra.1, hcontra.2.1, hcontra.2.2]⟩
  refine ⟨hact, hfro, ?_, ham, hst, ?_⟩
  · intro l hl
    simp only [sellResult] at hl
    rcases List.mem_append.mp hl with hmem | hnew
    · exact hpr l hmem
    · rcases List.mem_singleton.mp hnew with rfl
      exact lt_of_not_le hp
  · intro i j li lj hi hj hacti hactj hsell hasset
    simp only [sellResult] at hi hj
    rw [getElem?_append_single] at hi hj
    by_cases h1 : i < s.listings.length <;> by_cases h2 : j < s.listings.length
    · rw [if_pos h1] at hi; rw [if_pos h2] at hj
      exact huniq i j li lj hi hj hacti hactj hsell hasset
    · rw [if_pos h1] at hi; rw [if_neg h2] at hj
      split at hj
      · injection hj with hj
        subst hj
        exact absurd ⟨by simpa using hsell, by simpa using hasset, hacti⟩
          (hnodup li (List.getElem?_mem hi))
      · cases hj
    · rw [if_neg h1] at hi; rw [if_pos h2] at hj
      split at hi
      · injection hi with hi
        subst hi
        exact absurd ⟨by simpa using hsell.symm, by simpa using hasset.symm, hactj⟩
          (hnodup lj (List.getElem?_mem hj))
      · cases hi
    · rw [if_neg h1] at hi; rw [if_neg h2] at hj
      split at hi
      · split at hj
        · omega
        · cases hj
      · cases hi

theorem unique_active_set_nonactive {L : List SkinListing}
    (huniq : ∀ (i j : Nat) (li lj : SkinListing), L[i]? = some li →
      L[j]? = some lj → li.status = .ACTIVE → lj.status = .ACTIVE →
      li.seller = lj.seller → li.asset_id = lj.asset_id → i = j)
    {lid : Nat} {l' : SkinListing} (hlen : lid < L.length)
    (hst : ¬ l'.status = .ACTIVE) :
    ∀ (i j : Nat) (li lj : SkinListing), (L.set lid l')[i]? = some li →
      (L.set lid l')[j]? = some lj → li.status = .ACTIVE → lj.status = .ACTIVE →
      li.seller = lj.seller → li.asset_id = lj.asset_id → i = j := by
  intro i j li lj hi hj hacti hactj hsell hasset
  by_cases h1 : i = lid
  · subst h1
    rw [List.getElem?_set_self hlen] at hi
    injection hi with hi
    subst hi
    exact absurd hacti hst
  · by_cases h2 : j = lid
    · subst h2
      rw [List.getElem?_set_self hlen] at hj
      injection hj with hj
      subst hj
      exact absurd hactj hst
    · rw [List.getElem?_set_ne (fun hc => h1 hc.symm)] at hi
      rw [List.getElem?_set_ne (fun hc => h2 hc.symm)] at hj
      exact huniq i j li lj hi hj hacti hactj hsell hasset

theorem price_pos_set_same {L : List SkinListing}
    (hpr : ∀ l ∈ L, 0 < l.price_ton) {lid : Nat} {l l' : SkinListing}
    (hlook : L[lid]? = some l) (hprice : l'.price_ton = l.price_ton) :
    ∀ x ∈ L.set lid l', 0 < x.price_ton := by
  intro x hx
  rcases List.mem_or_eq_of_mem_set hx with hmem | rfl
  · exact hpr x hmem
  · rw [hprice]
    exact hpr l (List.getElem?_mem hlook)

theorem lt_length_of_getElem? {α : Type} {l : List α} {i : Nat} {x : α}
    (h : l[i]? = some x) : i < l.length := by
  by_contra hc
  rw [List.getElem?_eq_none (Nat.le_of_not_lt hc)] at h
  cases h

theorem inv_cancelResult {s : MarketState} {lid : Nat} {l : SkinListing}
    (hs : MarketInv s) (hlook : s.listings[lid]? = some l) :
    MarketInv (cancelResult s lid l) := by
  obtain ⟨hact, hfro, hpr, ham, hst, huniq⟩ := hs
  have hlen : lid < s.listings.length := lt_length_of_getElem? hlook
  refine ⟨hact, hfro, ?_, ham, hst, ?_⟩
  · exact price_pos_set_same hpr hlook rfl
  · exact unique_active_set_nonactive huniq hlen (by simp)

theorem inv_purchaseResult {s : MarketState} {caller lid : Nat}
    {listing : SkinListing} (hs : MarketInv s)
    (hlook : s.listings[lid]? = some listing)
    (hbal : ¬ (getUser s.users caller).balance_active < listing.price_ton) :
    MarketInv (purchaseResult s caller lid listing) := by
  obtain ⟨hact, hfro, hpr, ham, hst, huniq⟩ := hs
  have hlen : lid < s.listings.length := lt_length_of_getElem? hlook
  have hprice : 0 < listing.price_ton := hpr listing (List.getElem?_mem hlook)
  refine ⟨?_, ?_, ?_, ?_, ?_, ?_⟩
  · intro v
    simp only [purchaseResult]
    rw [getUser_setUser]
    split
    · simp only []
      exact sub_nonneg.mpr (not_lt.mp hbal)
    · exact hact v
  · intro v
    simp only [purchaseResult]
    rw [getUser_setUser, openSum_append]
    split
    · next hv =>
      subst hv
      simp only []
      rw [hfro v]
      simp [contrib]
    · next hv =>
      have : contrib v ⟨caller, listing.seller, lid, listing.price_ton,
          .PAID, none⟩ = 0 := by
        simp only [contrib]
        rw [if_neg]
        rintro ⟨hc, -⟩
        exact hv hc.symm
      rw [this, add_zero]
      exact hfro v
  · exact price_pos_set_same hpr hlook rfl
  · intro o ho
    simp only [purchaseResult] at ho
    rcases List.mem_append.mp ho with hmem | hnew
    · exact ham o hmem
    · rcases List.mem_singleton.mp hnew with rfl
      exact hprice
  · intro o ho
    simp only [purchaseResult] at ho
    rcases List.mem_append.mp ho with hmem | hnew
    · exact hst o hmem
    · rcases List.mem_singleton.mp hnew with rfl
      exact Or.inl rfl
  · exact unique_active_set_nonactive huniq hlen (by simp)

theorem inv_markSentResult {s : MarketState} {oid : Nat} {o : Order}
    {tid : String} (hs : MarketInv s) (hlook : s.orders[oid]? = some o)
    (hPAID : o.status = .PAID) :
    MarketInv (markSentResult s oid o tid) := by
  obtain ⟨hact, hfro, hpr, ham, hst, huniq⟩ := hs
  refine ⟨hact, ?_, hpr, ?_, ?_, huniq⟩
  · intro v
    simp only [markSentResult]
    rw [openSum_set s.orders oid _ o v hlook]
    have : contrib v { o with status := OStatus.SENT, steam_trade_id := some tid } =
        contrib v o := by
      simp [contrib, hPAID]
    rw [this]
    have heq : openSum s.orders v - contrib v o + contrib v o = openSum s.orders v := by
      ring
    rw [heq]
    exact hfro v
  · intro o' ho'
    simp only [markSentResult] at ho'
    rcases List.mem_or_eq_of_mem_set ho' with hmem | rfl
    · exact ham o' hmem
    · exact ham o (List.getElem?_mem hlook)
  · intro o' ho'
    simp only [markSentResult] at ho'
    rcases List.mem_or_eq_of_mem_set ho' with hmem | rfl
    · exact hst o' hmem
    · exact Or.inr (Or.inl rfl)

theorem inv_confirmResult {s : MarketState} {oid : Nat} {o : Order}
    (hs : MarketInv s) (hlook : s.orders[oid]? = some o)
    (hSENT : o.status = .SENT) :
    MarketInv (confirmResult s oid o) := by
  obtain ⟨hact, hfro, hpr, ham, hst, huniq⟩ := hs
  have hamt : 0 < o.amount := ham o (List.getElem?_mem hlook)
  refine ⟨?_, ?_, hpr, ?_, ?_, huniq⟩
  · intro v
    simp only [confirmResult]
    rw [getUser_setUser]
    split
    · simp only []
      rw [getUser_setUser]
      split
      · simp only []
        exact add_nonneg (hact o.buyer) hamt.le
      · exact add_nonneg (hact o.seller) hamt.le
    · rw [getUser_setUser]
      split
      · simp only []
        exact hact o.buyer
      · exact hact v
  · intro v
    simp only [confirmResult]
    rw [openSum_set s.orders oid _ o v hlook]
    have hc0 : contrib v { o with status := OStatus.COMPLETED } = 0 := by
      simp [contrib]
    rw [hc0, add_zero, getUser_setUser]
    split
    · next hvs =>
      simp only []
      rw [getUser_setUser]
      split
      · next hsb =>
        simp only []
        have hvb : v = o.buyer := hvs.trans hsb
        subst hvb
        rw [hfro o.buyer]
        simp [contrib, hSENT]
      · next hsb =>
        subst hvs
        rw [hfro o.seller]
        have hz : contrib o.seller o = 0 := by
          simp only [contrib]
          rw [if_neg]
          rintro ⟨hc, -⟩
          exact hsb hc.symm
        rw [hz, sub_zero]
    · next hvs =>
      rw [getUser_setUser]
      split
      · next hvb =>
        simp only []
        subst hvb
        rw [hfro o.buyer]
        simp [contrib, hSENT]
      · next hvb =>
        rw [hfro v]
        have hz : contrib v o = 0 := by
          simp only [contrib]
          rw [if_neg]
          rintro ⟨hc, -⟩
          exact hvb hc.symm
        rw [hz, sub_zero]
  · intro o' ho'
    simp only [confirmResult] at ho'
    rcases List.mem_or_eq_of_mem_set ho' with hmem | rfl
    · exact ham o' hmem
    · exact hamt
  · intro o' ho'
    simp only [confirmResult] at ho'
    rcases List.mem_or_eq_of_mem_set ho' with hmem | rfl
    · exact hst o' hmem
    · exact Or.inr (Or.inr rfl)

theorem inv_applyOp {op : Op} {s s' : MarketState} (hs : MarketInv s)
    (H : applyOp op s = some s') : MarketInv s' := by
  cases op with
  | deposit u a h c =>
    simp only [applyOp] at H
    obtain ⟨h1, h2, h3, rfl⟩ := process_deposit_ok_iff.mp (except_toOption_ok H)
    exact inv_depositResult hs (lt_of_not_le h1)
  | createListing se a m p =>
    simp only [applyOp] at H
    obtain ⟨q, hq, herrs, rfl⟩ := sell_item_ok_iff.mp (except_toOption_ok H)
    subst hq
    exact inv_sellResult hs herrs
  | cancelL c l =>
    simp only [applyOp] at H
    have H2 := except_toOption_ok H
    cases hlook : s.listings[l]? with
    | none => simp only [cancel_listing, hlook] at H2; cases H2
    | some li =>
      obtain ⟨h1, h2, rfl⟩ := (cancel_listing_ok_iff hlook).mp H2
      exact inv_cancelResult hs hlook
  | purchase c l =>
    simp only [applyOp] at H
    have H2 := except_toOption_ok H
    cases hlook : s.listings[l]? with
    | none => simp only [purchase_listing, hlook] at H2; cases H2
    | some li =>
      obtain ⟨h1, h2, h3, rfl⟩ := (purchase_listing_ok_iff hlook).mp H2
      exact inv_purchaseResult hs hlook h3
  | orderAct c oid act t =>
    simp only [applyOp] at H
    cases hod : order_detail s c oid act t with
    | ok s2 =>
      rw [hod] at H
      injection H with H
      subst H
      obtain ⟨o, hlook, hcase⟩ := order_detail_ok_cases hod
      rcases hcase with ⟨-, -, hPAID, -, rfl⟩ | ⟨-, -, hSENT, rfl⟩
      · exact inv_markSentResult hs hlook hPAID
      · exact inv_confirmResult hs hlook hSENT
    | err e => rw [hod] at H; cases H
    | silent => rw [hod] at H; cases H

theorem inv_init : MarketInv initState := by
  refine ⟨?_, ?_, ?_, ?_, ?_, ?_⟩ <;>
    simp [initState, getUser, openSum]

theorem reachable_inv {s : MarketState} (h : Reachable s) : MarketInv s := by
  unfold Reachable at h
  induction h with
  | refl => exact inv_init
  | tail hsteps hstep ih =>
    obtain ⟨op, hop⟩ := hstep
    exact inv_applyOp ih hop

theorem applyOp_deposits_mono {op : Op} {s s' : MarketState}
    (H : applyOp op s = some s') : ∀ d ∈ s.deposits, d ∈ s'.deposits := by
  cases op with
  | deposit u a h c =>
    simp only [applyOp] at H
    obtain ⟨-, -, -, rfl⟩ := process_deposit_ok_iff.mp (except_toOption_ok H)
    intro d hd
    exact List.mem_append_left _ hd
  | createListing se a m p =>
    simp only [applyOp] at H
    obtain ⟨q, hq, herrs, rfl⟩ := sell_item_ok_iff.mp (except_toOption_ok H)
    exact fun d hd => hd
  | cancelL c l =>
    simp only [applyOp] at H
    have H2 := except_toOption_ok H
    cases hlook : s.listings[l]? with
    | none => simp only [cancel_listing, hlook] at H2; cases H2
    | some li =>
      obtain ⟨-, -, rfl⟩ := (cancel_listing_ok_iff hlook).mp H2
      exact fun d hd => hd
  | purchase c l =>
    simp only [applyOp] at H
    have H2 := except_toOption_ok H
    cases hlook : s.listings[l]? with
    | none => simp only [purchase_listing, hlook] at H2; cases H2
    | some li =>
      obtain ⟨-, -, -, rfl⟩ := (purchase_listing_ok_iff hlook).mp H2
      exact fun d hd => hd
  | orderAct c oid act t =>
    simp only [applyOp] at H
    cases hod : order_detail s c oid act t with
    | ok s2 =>
      rw [hod] at H
      injection H with H
      subst H
      obtain ⟨o, hlook, hcase⟩ := order_detail_ok_cases hod
      rcases hcase with ⟨-, -, -, -, rfl⟩ | ⟨-, -, -, rfl⟩
      · exact fun d hd => hd
      · exact fun d hd => hd
    | err e => rw [hod] at H; cases H
    | silent => rw [hod] at H; cases H

theorem reach_deposits_mono {s t : MarketState}
    (h : Relation.ReflTransGen Step s t) : ∀ d ∈ s.deposits, d ∈ t.deposits := by
  induction h with
  | refl => exact fun d hd => hd
  | tail hst hstep ih =>
    obtain ⟨op, hop⟩ := hstep
    exact fun d hd => applyOp_deposits_mono hop d (ih d hd)

theorem process_deposit_duplicate {t : MarketState} {u2 : Nat} {a2 : ℤ}
    {r : String} {c2 : Option String} (ha : 0 < a2)
    (hr : ¬ (r = "" ∨ pyStrip r = ""))
    (hdup : ∃ d ∈ t.deposits, d.tx_hash = r) :
    process_deposit t u2 a2 r c2 = .error .DuplicateTransaction := by
  unfold process_deposit
  rw [if_neg (not_le.mpr ha), if_neg hr, if_pos]
  rw [List.any_eq_true]
  obtain ⟨d, hd, hdr⟩ := hdup
  exact ⟨d, hd, by simp [hdr]⟩

theorem demoA_reachable : Reachable demoA :=
  Relation.ReflTransGen.single ⟨.deposit 1 10 "tx1" none, by decide⟩

theorem demoB_reachable : Reachable demoB :=
  demoA_reachable.tail ⟨.createListing 2 "a1" "AK Redline" (some 7), by decide⟩

theorem demoC_reachable : Reachable demoC :=
  demoB_reachable.tail ⟨.purchase 1 0, by decide⟩

theorem demoD_reachable : Reachable demoD :=
  demoC_reachable.tail ⟨.orderAct 2 0 "mark_sent" "t9", by decide⟩

theorem demoE_reachable : Reachable demoE :=
  demoD_reachable.tail ⟨.orderAct 1 0 "confirm_received" "", by decide⟩

/-- C3: in every state reachable from the all-zero initial state by the core
operations, every account has a non-negative active balance and a
non-negative frozen balance. -/
theorem C3_no_negative_balances {s : MarketState} (h : Reachable s) :
    ∀ u, 0 ≤ (getUser s.users u).balance_active ∧
      0 ≤ (getUser s.users u).balance_frozen :=
  fun u => ⟨(reachable_inv h).active_nonneg u, inv_frozen_nonneg (reachable_inv h) u⟩

theorem C3_witness :
    Reachable demoC ∧
    (0 ≤ (getUser demoC.users 1).balance_active ∧
     0 ≤ (getUser demoC.users 1).balance_frozen) :=
  ⟨demoC_reachable, C3_no_negative_balances demoC_reachable 1⟩

/-- C6: invoking CreatePurchase against a listing that exists but is no longer
ACTIVE fails with ListingUnavailable and commits no state change at all. -/
theorem C6_stale_listing_fails {s : MarketState} {buyer lid : Nat}
    {l : SkinListing} (hlook : s.listings[lid]? = some l)
    (hst : l.status ≠ .ACTIVE) :
    purchase_listing s buyer lid = .error .ListingUnavailable ∧
    applyOp (.purchase buyer lid) s = none := by
  have h1 : purchase_listing s buyer lid = .error .ListingUnavailable := by
    simp only [purchase_listing, hlook]
    rw [if_pos hst]
  refine ⟨h1, ?_⟩
  simp only [applyOp, h1]
  rfl

theorem C6_witness :
    demoC.listings[0]? = some (⟨2, "a1", "AK Redline", 7, .SOLD⟩ : SkinListing) ∧
    (purchase_listing demoC 1 0 = .error .ListingUnavailable ∧
     applyOp (.purchase 1 0) demoC = none) :=
  ⟨by decide,
    @C6_stale_listing_fails demoC 1 0 ⟨2, "a1", "AK Redline", 7, .SOLD⟩
      (by decide) (by decide)⟩

/-- C4: CreatePurchase on an existing ACTIVE listing fails with SelfPurchase
when the buyer is the seller; fails with InsufficientFunds when the buyer's
active balance is strictly below the price; otherwise (in particular at
exactly the full balance) it succeeds, debiting active, crediting frozen,
appending one Order(PAID, amount = price), setting the listing to SOLD, and
touching nothing else. -/
theorem C4_purchase {s : MarketState} {caller lid : Nat} {listing : SkinListing}
    (hlook : s.listings[lid]? = some listing)
    (hactive : listing.status = .ACTIVE) :
    (listing.seller = caller →
      purchase_listing s caller lid = .error .SelfPurchase) ∧
    (listing.seller ≠ caller →
      (getUser s.users caller).balance_active < listing.price_ton →
      purchase_listing s caller lid = .error .InsufficientFunds) ∧
    (listing.seller ≠ caller →
      listing.price_ton ≤ (getUser s.users caller).balance_active →
      ∃ s', purchase_listing s caller lid = .ok s' ∧
        (getUser s'.users caller).balance_active
          = (getUser s.users caller).balance_active - listing.price_ton ∧
        (getUser s'.users caller).balance_frozen
          = (getUser s.users caller).balance_frozen + listing.price_ton ∧
        (∀ v, v ≠ caller → getUser s'.users v = getUser s.users v) ∧
        s'.orders = s.orders ++
          [⟨caller, listing.seller, lid, listing.price_ton, .PAID, none⟩] ∧
        s'.listings[lid]? = some { listing with status := .SOLD } ∧
        (∀ j, j ≠ lid → s'.listings[j]? = s.listings[j]?) ∧
        s'.deposits = s.deposits) := by
  have hne : ¬ listing.status ≠ LStatus.ACTIVE := not_not.mpr hactive
  refine ⟨?_, ?_, ?_⟩
  · intro hself
    simp only [purchase_listing, hlook]
    rw [if_neg hne, if_pos hself]
  · intro hself hbal
    simp only [purchase_listing, hlook]
    rw [if_neg hne, if_neg hself, if_pos hbal]
  · intro hself hbal
    refine ⟨purchaseResult s caller lid listing, ?_, ?_, ?_, ?_, rfl, ?_, ?_, rfl⟩
    · exact (purchase_listing_ok_iff hlook).mpr
        ⟨hactive, hself, not_lt.mpr hbal, rfl⟩
    · simp only [purchaseResult]
      rw [getUser_setUser, if_pos rfl]
    · simp only [purchaseResult]
      rw [getUser_setUser, if_pos rfl]
    · intro v hv
      simp only [purchaseResult]
      rw [getUser_setUser, if_neg hv]
    · simp only [purchaseResult]
      exact List.getElem?_set_self (lt_length_of_getElem? hlook)
    · intro j hj
      simp only [purchaseResult]
      exact List.getElem?_set_ne (fun hc => hj hc.symm)

theorem C4_witness :
    demoExact.listings[0]? = some (⟨2, "a1", "AK Redline", 7, .ACTIVE⟩ : SkinListing) ∧
    (getUser demoExact.users 3).balance_active = 7 ∧
    (∃ s', purchase_listing demoExact 3 0 = .ok s' ∧
      (getUser s'.users 3).balance_active = (getUser demoExact.users 3).balance_active - 7 ∧
      (getUser s'.users 3).balance_frozen = (getUser demoExact.users 3).balance_frozen + 7 ∧
      (∀ v, v ≠ 3 → getUser s'.users v = getUser demoExact.users v) ∧
      s'.orders = demoExact.orders ++ [⟨3, 2, 0, 7, .PAID, none⟩] ∧
      s'.listings[0]? = some (⟨2, "a1", "AK Redline", 7, .SOLD⟩ : SkinListing) ∧
      (∀ j, j ≠ 0 → s'.listings[j]? = demoExact.listings[j]?) ∧
      s'.deposits = demoExact.deposits) :=
  ⟨by decide, by decide,
    (@C4_purchase demoExact 3 0 ⟨2, "a1", "AK Redline", 7, .ACTIVE⟩
      (by decide) (by decide)).2.2 (by decide) (by decide)⟩

/-- C10: for an order in PAID whose seller invokes mark_sent with a non-blank
trade id, the committed state differs only in that order's status (now SENT)
and its stored trade id: every account row, every listing, every deposit, and
every other order — and the order's own amount, buyer, seller and listing —
are unchanged. -/
theorem C10_mark_sent_frame {s : MarketState} {caller oid : Nat} {tid : String}
    {o : Order} (hlook : s.orders[oid]? = some o) (hPAID : o.status = .PAID)
    (hcaller : o.seller = caller) (htid : pyStrip tid ≠ "") :
    ∃ s', order_detail s caller oid "mark_sent" tid = .ok s' ∧
      s'.users = s.users ∧ s'.listings = s.listings ∧ s'.deposits = s.deposits ∧
      s'.orders[oid]? = some ({ o with status := .SENT, steam_trade_id := some (pyStrip tid) }) ∧
      (∀ j, j ≠ oid → s'.orders[j]? = s.orders[j]?) ∧
      (∀ o', s'.orders[oid]? = some o' → o'.amount = o.amount ∧
        o'.buyer = o.buyer ∧ o'.seller = o.seller ∧ o'.listing = o.listing) := by
  have hok : order_detail s caller oid "mark_sent" tid
      = .ok (markSentResult s oid o (pyStrip tid)) := by
    simp only [order_detail, hlook]
    rw [if_neg (fun hc => hc.2 hcaller), if_pos ⟨hcaller, trivial⟩, if_pos hPAID,
      if_neg htid]
  refine ⟨markSentResult s oid o (pyStrip tid), hok, rfl, rfl, rfl, ?_, ?_, ?_⟩
  · simp only [markSentResult]
    exact List.getElem?_set_self (lt_length_of_getElem? hlook)
  · intro j hj
    simp only [markSentResult]
    exact List.getElem?_set_ne (fun hc => hj hc.symm)
  · intro o' ho'
    simp only [markSentResult] at ho'
    rw [List.getElem?_set_self (lt_length_of_getElem? hlook)] at ho'
    injection ho' with ho'
    subst ho'
    exact ⟨rfl, rfl, rfl, rfl⟩

theorem C10_witness :
    demoC.orders[0]? = some (⟨1, 2, 0, 7, .PAID, none⟩ : Order) ∧
    pyStrip " t9 " ≠ "" ∧
    (∃ s', order_detail demoC 2 0 "mark_sent" " t9 " = .ok s' ∧
      s'.users = demoC.users ∧ s'.listings = demoC.listings ∧
      s'.deposits = demoC.deposits ∧
      s'.orders[0]? = some (⟨1, 2, 0, 7, .SENT, some "t9"⟩ : Order) ∧
      (∀ j, j ≠ 0 → s'.orders[j]? = demoC.orders[j]?) ∧
      (∀ o', s'.orders[0]? = some o' → o'.amount = 7 ∧
        o'.buyer = 1 ∧ o'.seller = 2 ∧ o'.listing = 0)) :=
  ⟨by decide, by decide,
    @C10_mark_sent_frame demoC 2 0 " t9 " ⟨1, 2, 0, 7, .PAID, none⟩
      (by decide) (by decide) (by decide) (by decide)⟩

/-- C9: in every reachable state there is at most one ACTIVE listing per
(seller, asset_id) pair, and CreateListing reports DuplicateActiveListing
whenever the seller already has an ACTIVE listing for the same asset (no other
operation creates listings — the reachability induction covers them all). -/
theorem C9_unique_active :
    (∀ s : MarketState, Reachable s →
      ∀ (i j : Nat) (li lj : SkinListing), s.listings[i]? = some li →
        s.listings[j]? = some lj → li.status = .ACTIVE → lj.status = .ACTIVE →
        li.seller = lj.seller → li.asset_id = lj.asset_id → i = j) ∧
    (∀ (s : MarketState) (seller : Nat) (asset_id market_name : String)
      (price : Option ℤ) (l : SkinListing), l ∈ s.listings →
      l.seller = seller → l.asset_id = asset_id → l.status = .ACTIVE →
      ∃ es, sell_item s seller asset_id market_name price = .error es ∧
        MarketError.DuplicateActiveListing ∈ es) := by
  constructor
  · intro s hs
    exact (reachable_inv hs).unique_active
  · intro s seller asset_id market_name price l hl hsell hasset hactive
    have hany : s.listings.any (fun l =>
        l.seller = seller ∧ l.asset_id = asset_id ∧ l.status = .ACTIVE) = true := by
      rw [List.any_eq_true]
      exact ⟨l, hl, by simp [hsell, hasset, hactive]⟩
    have hmem : MarketError.DuplicateActiveListing ∈
        sellErrors s seller asset_id market_name price := by
      unfold sellErrors
      refine List.mem_append_right _ ?_
      rw [if_pos hany]
      exact List.mem_singleton.mpr rfl
    refine ⟨sellErrors s seller asset_id market_name price, ?_, hmem⟩
    unfold sell_item
    rw [if_neg (List.ne_nil_of_mem hmem)]

theorem C9_witness :
    Reachable demoB ∧
    (⟨2, "a1", "AK Redline", 7, .ACTIVE⟩ : SkinListing) ∈ demoB.listings ∧
    (∃ es, sell_item demoB 2 "a1" "Other Name" (some 3) = .error es ∧
      MarketError.DuplicateActiveListing ∈ es) ∧
    demoB.listings[0]? = some (⟨2, "a1", "AK Redline", 7, .ACTIVE⟩ : SkinListing) ∧
    0 = 0 :=
  ⟨demoB_reachable, by decide,
    (C9_unique_active).2 demoB 2 "a1" "Other Name" (some 3)
      ⟨2, "a1", "AK Redline", 7, .ACTIVE⟩ (by decide) rfl rfl rfl,
    by decide,
    (C9_unique_active).1 demoB demoB_reachable 0 0
      ⟨2, "a1", "AK Redline", 7, .ACTIVE⟩ ⟨2, "a1", "AK Redline", 7, .ACTIVE⟩
      (by decide) (by decide) rfl rfl rfl rfl⟩

/-- Every committed operation either leaves the orders table unchanged,
appends one PAID order, advances one PAID order to SENT, or advances one SENT
order to COMPLETED. -/
theorem applyOp_orders_evolution {op : Op} {s s' : MarketState}
    (H : applyOp op s = some s') :
    s'.orders = s.orders ∨
    (∃ o : Order, o.status = .PAID ∧ s'.orders = s.orders ++ [o]) ∨
    (∃ (i : Nat) (o : Order) (t : String), s.orders[i]? = some o ∧
      o.status = .PAID ∧
      s'.orders = s.orders.set i ({ o with status := .SENT, steam_trade_id := some t })) ∨
    (∃ (i : Nat) (o : Order), s.orders[i]? = some o ∧ o.status = .SENT ∧
      s'.orders = s.orders.set i ({ o with status := .COMPLETED })) := by
  cases op with
  | deposit u a h c =>
    simp only [applyOp] at H
    obtain ⟨-, -, -, rfl⟩ := process_deposit_ok_iff.mp (except_toOption_ok H)
    exact .inl rfl
  | createListing se a m p =>
    simp only [applyOp] at H
    obtain ⟨q, hq, herrs, rfl⟩ := sell_item_ok_iff.mp (except_toOption_ok H)
    exact .inl rfl
  | cancelL c l =>
    simp only [applyOp] at H
    have H2 := except_toOption_ok H
    cases hlook : s.listings[l]? with
    | none => simp only [cancel_listing, hlook] at H2; cases H2
    | some li =>
      obtain ⟨-, -, rfl⟩ := (cancel_listing_ok_iff hlook).mp H2
      exact .inl rfl
  | purchase c l =>
    simp only [applyOp] at H
    have H2 := except_toOption_ok H
    cases hlook : s.listings[l]? with
    | none => simp only [purchase_listing, hlook] at H2; cases H2
    | some li =>
      obtain ⟨-, -, -, rfl⟩ := (purchase_listing_ok_iff hlook).mp H2
      exact .inr (.inl ⟨⟨c, li.seller, l, li.price_ton, .PAID, none⟩, rfl, rfl⟩)
  | orderAct c oid act t =>
    simp only [applyOp] at H
    cases hod : order_detail s c oid act t with
    | ok s2 =>
      rw [hod] at H
      injection H with H
      subst H
      obtain ⟨o, hlook, hcase⟩ := order_detail_ok_cases hod
      rcases hcase with ⟨-, -, hPAID, -, rfl⟩ | ⟨-, -, hSENT, rfl⟩
      · exact .inr (.inr (.inl ⟨oid, o, pyStrip t, hlook, hPAID, rfl⟩))
      · exact .inr (.inr (.inr ⟨oid, o, hlook, hSENT, rfl⟩))
    | err e => rw [hod] at H; cases H
    | silent => rw [hod] at H; cases H

/-- C7: under any committed operation, each existing order either keeps its
row unchanged or advances one step along PAID→SENT→COMPLETED, and each newly
created order starts in PAID.  Hence every order's status history is a prefix
of PAID→SENT→COMPLETED (so also of the claimed pair of chains), statuses never
move backward or skip SENT, and COMPLETED is terminal. -/
theorem C7_order_monotone {op : Op} {s s' : MarketState}
    (H : applyOp op s = some s') :
    (∀ (i : Nat) (oi : Order), s.orders[i]? = some oi →
      ∃ oi', s'.orders[i]? = some oi' ∧
        (oi' = oi ∨
         (oi.status = .PAID ∧ oi'.status = .SENT) ∨
         (oi.status = .SENT ∧ oi'.status = .COMPLETED))) ∧
    (∀ (i : Nat) (oi' : Order), s.orders[i]? = none → s'.orders[i]? = some oi' →
      oi'.status = .PAID) := by
  obtain hevo | ⟨o, hPAID, hevo⟩ | ⟨k, o, t, hk, hPAID, hevo⟩ |
      ⟨k, o, hk, hSENT, hevo⟩ := applyOp_orders_evolution H
  · constructor
    · intro i oi hi
      exact ⟨oi, hevo ▸ hi, .inl rfl⟩
    · intro i oi' hnone hsome
      rw [hevo, hnone] at hsome
      cases hsome
  · constructor
    · intro i oi hi
      refine ⟨oi, ?_, .inl rfl⟩
      rw [hevo, getElem?_append_single, if_pos (lt_length_of_getElem? hi)]
      exact hi
    · intro i oi' hnone hsome
      rw [hevo, getElem?_append_single] at hsome
      split at hsome
      · next hlt => rw [hnone] at hsome; cases hsome
      · split at hsome
        · injection hsome with hsome
          subst hsome
          exact hPAID
        · cases hsome
  · constructor
    · intro i oi hi
      by_cases hik : i = k
      · subst hik
        rw [hk] at hi
        injection hi with hi
        subst hi
        refine ⟨{ o with status := .SENT, steam_trade_id := some t }, ?_,
          .inr (.inl ⟨hPAID, rfl⟩)⟩
        rw [hevo]
        exact List.getElem?_set_self (lt_length_of_getElem? hk)
      · refine ⟨oi, ?_, .inl rfl⟩
        rw [hevo, List.getElem?_set_ne (fun hc => hik hc.symm)]
        exact hi
    · intro i oi' hnone hsome
      have hik : ¬ k = i := fun hc => by rw [hc, hnone] at hk; cases hk
      rw [hevo, List.getElem?_set_ne hik, hnone] at hsome
      cases hsome
  · constructor
    · intro i oi hi
      by_cases hik : i = k
      · subst hik
        rw [hk] at hi
        injection hi with hi
        subst hi
        refine ⟨{ o with status := .COMPLETED }, ?_,
          .inr (.inr ⟨hSENT, rfl⟩)⟩
        rw [hevo]
        exact List.getElem?_set_self (lt_length_of_getElem? hk)
      · refine ⟨oi, ?_, .inl rfl⟩
        rw [hevo, List.getElem?_set_ne (fun hc => hik hc.symm)]
        exact hi
    · intro i oi' hnone hsome
      have hik : ¬ k = i := fun hc => by rw [hc, hnone] at hk; cases hk
      rw [hevo, List.getElem?_set_ne hik, hnone] at hsome
      cases hsome

theorem C7_witness :
    applyOp (.orderAct 2 0 "mark_sent" "t9") demoC = some demoD ∧
    (∃ oi', demoD.orders[0]? = some oi' ∧
      (oi' = (⟨1, 2, 0, 7, .PAID, none⟩ : Order) ∨
       ((⟨1, 2, 0, 7, .PAID, none⟩ : Order).status = .PAID ∧ oi'.status = .SENT) ∨
       ((⟨1, 2, 0, 7, .PAID, none⟩ : Order).status = .SENT ∧
        oi'.status = .COMPLETED))) :=
  ⟨by decide,
    (@C7_order_monotone (.orderAct 2 0 "mark_sent" "t9") demoC demoD
      (by decide)).1 0 ⟨1, 2, 0, 7, .PAID, none⟩ (by decide)⟩

/-- C1 counterexample: after "tx1" is credited, replaying "tx1" with the
non-positive amount -1 fails with the amount-validation error (InvalidInput),
not with DuplicateTransaction — the claim's "for any amount" is too strong. -/
theorem C1_counterexample :
    applyOp (.deposit 1 10 "tx1" none) initState = some demoA ∧
    process_deposit demoA 2 (-1) "tx1" none = .error .InvalidInput ∧
    process_deposit demoA 2 (-1) "tx1" none
      ≠ .error .DuplicateTransaction := by
  refine ⟨by decide, by decide, by decide⟩

/-- C1 (amended): the first deposit with a positive amount and a non-blank
fresh reference succeeds, credits exactly that amount, and leaves exactly one
CONFIRMED deposit with that reference; afterwards, in every later reachable
state, any replay of the same reference with a positive amount fails with
DuplicateTransaction (a non-positive amount fails earlier with InvalidInput;
either way no deposit is created and no balance changes, since a failed call
commits nothing). -/
theorem C1_deposit_idempotent {s : MarketState} {u : Nat} {a : ℤ} {r : String}
    {c : Option String} (ha : 0 < a) (hr : pyStrip r ≠ "")
    (hfresh : ∀ d ∈ s.deposits, d.tx_hash ≠ r) :
    ∃ s', process_deposit s u a r c = .ok s' ∧
      (getUser s'.users u).balance_active
        = (getUser s.users u).balance_active + a ∧
      (∀ v, v ≠ u → getUser s'.users v = getUser s.users v) ∧
      (s'.deposits.filter (fun d => d.tx_hash = r)).length = 1 ∧
      (∀ d ∈ s'.deposits, d.tx_hash = r →
        d.status = .CONFIRMED ∧ d.amount = a ∧ d.user = u) ∧
      s'.orders = s.orders ∧ s'.listings = s.listings ∧
      (∀ t, Relation.ReflTransGen Step s' t → ∀ (u2 : Nat) (a2 : ℤ)
        (c2 : Option String), 0 < a2 →
        process_deposit t u2 a2 r c2 = .error .DuplicateTransaction) := by
  have hguard : ¬ (r = "" ∨ pyStrip r = "") := by
    rintro (rfl | h)
    · exact hr (by decide)
    · exact hr h
  have hany : ¬ s.deposits.any (fun d => d.tx_hash = r) = true := by
    rw [List.any_eq_true]
    rintro ⟨d, hd, hdr⟩
    exact hfresh d hd (by simpa using hdr)
  refine ⟨depositResult s u a r c,
    process_deposit_ok_iff.mpr ⟨not_le.mpr ha, hguard, hany, rfl⟩,
    ?_, ?_, ?_, ?_, rfl, rfl, ?_⟩
  · simp only [depositResult]
    rw [getUser_setUser, if_pos rfl]
  · intro v hv
    simp only [depositResult]
    rw [getUser_setUser, if_neg hv]
  · simp only [depositResult]
    rw [List.filter_append]
    have h1 : s.deposits.filter (fun d => d.tx_hash = r) = [] := by
      rw [List.filter_eq_nil_iff]
      intro d hd
      simpa using hfresh d hd
    rw [h1]
    simp
  · intro d hd hdr
    simp only [depositResult] at hd
    rcases List.mem_append.mp hd with hmem | hnew
    · exact absurd hdr (hfresh d hmem)
    · rcases List.mem_singleton.mp hnew with rfl
      exact ⟨rfl, rfl, rfl⟩
  · intro t hreach u2 a2 c2 ha2
    refine process_deposit_duplicate ha2 hguard ?_
    refine ⟨⟨u, a, r, .CONFIRMED, depositCode u c⟩, ?_, rfl⟩
    refine reach_deposits_mono hreach _ ?_
    simp only [depositResult]
    exact List.mem_append_right _ (List.mem_singleton.mpr rfl)

theorem C1_witness :
    (0 : ℤ) < 5 ∧ pyStrip "txA" ≠ "" ∧
    (∀ d ∈ initState.deposits, d.tx_hash ≠ "txA") ∧
    (∃ s', process_deposit initState 1 5 "txA" none = .ok s' ∧
      (getUser s'.users 1).balance_active
        = (getUser initState.users 1).balance_active + 5 ∧
      (∀ v, v ≠ 1 → getUser s'.users v = getUser initState.users v) ∧
      (s'.deposits.filter (fun d => d.tx_hash = "txA")).length = 1 ∧
      (∀ d ∈ s'.deposits, d.tx_hash = "txA" →
        d.status = .CONFIRMED ∧ d.amount = 5 ∧ d.user = 1) ∧
      s'.orders = initState.orders ∧ s'.listings = initState.listings ∧
      (∀ t, Relation.ReflTransGen Step s' t → ∀ (u2 : Nat) (a2 : ℤ)
        (c2 : Option String), 0 < a2 →
        process_deposit t u2 a2 "txA" c2 = .error .DuplicateTransaction)) :=
  ⟨by decide, by decide, by decide,
    C1_deposit_idempotent (by decide) (by decide) (by decide)⟩

/-- C2 counterexample: ConfirmReceipt (a non-deposit operation) strictly
increases the seller's total holdings (account 2 goes from 0 to 7) and
strictly decreases the buyer's (account 1 goes from 10 to 3) — refuting both
"only a deposit Credit increases an account's total holdings" and "no core
operation decreases total holdings". -/
theorem C2_counterexample :
    applyOp (.orderAct 1 0 "confirm_received" "") demoD = some demoE ∧
    (∀ (u : Nat) (a : ℤ) (h : String) (c : Option String),
      (Op.orderAct 1 0 "confirm_received" "") ≠ .deposit u a h c) ∧
    hold demoD 2 = 0 ∧ hold demoE 2 = 7 ∧
    hold demoD 1 = 10 ∧ hold demoE 1 = 3 := by
  refine ⟨by decide, ?_, by decide, by decide, by decide, by decide⟩
  intro u a h c hc
  cases hc

/-- C2 (amended): a freeze (successful purchase) preserves every account's
total holdings; an escrow release (successful confirm) preserves the combined
buyer+seller total, moving value between them, and touches no other account;
a deposit adds exactly its amount to the one credited account; listing
creation and cancellation touch no account at all.  Hence the only operation
that increases the combined holdings of all accounts is a deposit Credit, and
none decreases it. -/
theorem C2_conservation {op : Op} {s s' : MarketState}
    (H : applyOp op s = some s') :
    (∀ (u : Nat) (a : ℤ) (h : String) (c : Option String),
      op = .deposit u a h c →
      hold s' u = hold s u + a ∧
      ∀ v, v ≠ u → getUser s'.users v = getUser s.users v) ∧
    (∀ b lid, op = .purchase b lid → ∀ u, hold s' u = hold s u) ∧
    (∀ caller oid act t, op = .orderAct caller oid act t →
      ∃ o, s.orders[oid]? = some o ∧
        hold s' o.buyer + hold s' o.seller = hold s o.buyer + hold s o.seller ∧
        (∀ v, v ≠ o.buyer → v ≠ o.seller →
          getUser s'.users v = getUser s.users v)) ∧
    (∀ se aid mn p, op = .createListing se aid mn p → s'.users = s.users) ∧
    (∀ caller lid, op = .cancelL caller lid → s'.users = s.users) := by
  refine ⟨?_, ?_, ?_, ?_, ?_⟩
  · rintro u a h c rfl
    simp only [applyOp] at H
    obtain ⟨-, -, -, rfl⟩ := process_deposit_ok_iff.mp (except_toOption_ok H)
    constructor
    · simp only [hold, depositResult]
      rw [getUser_setUser, if_pos rfl]
      simp only []
      ring
    · intro v hv
      simp only [depositResult]
      rw [getUser_setUser, if_neg hv]
  · rintro b lid rfl
    simp only [applyOp] at H
    have H2 := except_toOption_ok H
    cases hlook : s.listings[lid]? with
    | none => simp only [purchase_listing, hlook] at H2; cases H2
    | some li =>
      obtain ⟨-, -, -, rfl⟩ := (purchase_listing_ok_iff hlook).mp H2
      intro u
      simp only [hold, purchaseResult]
      rw [getUser_setUser]
      split
      · next hu =>
        subst hu
        simp only []
        ring
      · rfl
  · rintro caller oid act t rfl
    simp only [applyOp] at H
    cases hod : order_detail s caller oid act t with
    | ok s2 =>
      rw [hod] at H
      injection H with H
      subst H
      obtain ⟨o, hlook, hcase⟩ := order_detail_ok_cases hod
      rcases hcase with ⟨-, -, -, -, rfl⟩ | ⟨-, -, -, rfl⟩
      · exact ⟨o, hlook, rfl, fun v hv1 hv2 => rfl⟩
      · refine ⟨o, hlook, ?_, ?_⟩
        · by_cases hbs : o.buyer = o.seller
          · simp only [hold, confirmResult, getUser_setUser, hbs]
            simp only [eq_self_iff_true, if_true]
            ring
          · have hsb : ¬ o.seller = o.buyer := fun hc => hbs hc.symm
            simp only [hold, confirmResult, getUser_setUser]
            simp only [if_neg hbs, if_neg hsb, eq_self_iff_true, if_true]
            ring
        · intro v hv1 hv2
          simp only [confirmResult]
          rw [getUser_setUser, if_neg hv2, getUser_setUser, if_neg hv1]
    | err e => rw [hod] at H; cases H
    | silent => rw [hod] at H; cases H
  · rintro se aid mn p rfl
    simp only [applyOp] at H
    obtain ⟨q, hq, herrs, rfl⟩ := sell_item_ok_iff.mp (except_toOption_ok H)
    rfl
  · rintro caller lid rfl
    simp only [applyOp] at H
    have H2 := except_toOption_ok H
    cases hlook : s.listings[lid]? with
    | none => simp only [cancel_listing, hlook] at H2; cases H2
    | some li =>
      obtain ⟨-, -, rfl⟩ := (cancel_listing_ok_iff hlook).mp H2
      rfl

theorem C2_witness :
    applyOp (.purchase 1 0) demoB = some demoC ∧
    (∀ u, hold demoC u = hold demoB u) :=
  ⟨by decide,
    (@C2_conservation (.purchase 1 0) demoB demoC (by decide)).2.1 1 0 rfl⟩

/-- C5 counterexample: on a SENT order, the seller invoking confirm_received
matches neither action branch of the view — the request is silently ignored
(no state change, but also no Forbidden and no InvalidState error), so
"failing with InvalidState or Forbidden otherwise" does not hold as stated. -/
theorem C5_counterexample :
    demoD.orders[0]? = some (⟨1, 2, 0, 7, .SENT, some "t9"⟩ : Order) ∧
    order_detail demoD 2 0 "confirm_received" "" = .silent ∧
    order_detail demoD 2 0 "confirm_received" "" ≠ .err .Forbidden ∧
    order_detail demoD 2 0 "confirm_received" "" ≠ .err .InvalidState ∧
    (∀ s', order_detail demoD 2 0 "confirm_received" "" ≠ .ok s') := by
  refine ⟨by decide, by decide, by decide, by decide, ?_⟩
  intro s' hc
  rw [show order_detail demoD 2 0 "confirm_received" "" = .silent from by decide]
    at hc
  cases hc

/-- C5 (amended): ConfirmReceipt succeeds exactly when the order is SENT and
the caller is its buyer; a caller who is not a party gets Forbidden; the buyer
on a non-SENT order gets InvalidState; the seller's invocation is silently
ignored with no state change and no error.  On success, in one committed
state, the buyer's frozen balance drops by order.amount (the snapshot taken at
purchase), the seller's active balance rises by order.amount, the order
becomes COMPLETED, and nothing else changes. -/
theorem C5_confirm_receipt {s : MarketState} {caller oid : Nat} {tid : String}
    {o : Order} (hlook : s.orders[oid]? = some o) :
    (o.buyer ≠ caller ∧ o.seller ≠ caller →
      order_detail s caller oid "confirm_received" tid = .err .Forbidden) ∧
    (o.buyer = caller → o.status ≠ .SENT →
      order_detail s caller oid "confirm_received" tid = .err .InvalidState) ∧
    (o.seller = caller → o.buyer ≠ caller →
      order_detail s caller oid "confirm_received" tid = .silent) ∧
    (o.buyer = caller → o.status = .SENT →
      ∃ s', order_detail s caller oid "confirm_received" tid = .ok s' ∧
        (getUser s'.users o.buyer).balance_frozen
          = (getUser s.users o.buyer).balance_frozen - o.amount ∧
        (getUser s'.users o.seller).balance_active
          = (getUser s.users o.seller).balance_active + o.amount ∧
        (∀ v, v ≠ o.buyer → v ≠ o.seller →
          getUser s'.users v = getUser s.users v) ∧
        s'.orders[oid]? = some ({ o with status := .COMPLETED }) ∧
        (∀ j, j ≠ oid → s'.orders[j]? = s.orders[j]?) ∧
        s'.listings = s.listings ∧ s'.deposits = s.deposits) := by
  refine ⟨?_, ?_, ?_, ?_⟩
  · intro hperm
    simp only [order_detail, hlook]
    rw [if_pos ⟨hperm.1, hperm.2⟩]
  · intro hb hstatus
    simp only [order_detail, hlook]
    rw [if_neg (fun hc => hc.1 hb)]
    rw [if_neg (fun hc : _ ∧ _ => absurd hc.2 (by decide)),
      if_pos ⟨hb, trivial⟩, if_neg hstatus]
  · intro hsell hbuy
    simp only [order_detail, hlook]
    rw [if_neg (fun hc => hc.2 hsell)]
    rw [if_neg (fun hc : _ ∧ _ => absurd hc.2 (by decide))]
    rw [if_neg (fun hc : _ ∧ _ => hbuy hc.1)]
  · intro hb hstatus
    have hok : order_detail s caller oid "confirm_received" tid
        = .ok (confirmResult s oid o) := by
      simp only [order_detail, hlook]
      rw [if_neg (fun hc => hc.1 hb)]
      rw [if_neg (fun hc : _ ∧ _ => absurd hc.2 (by decide))]
      rw [if_pos ⟨hb, trivial⟩, if_pos hstatus]
    refine ⟨confirmResult s oid o, hok, ?_, ?_, ?_, ?_, ?_, rfl, rfl⟩
    · simp only [confirmResult]
      rw [getUser_setUser]
      split
      · next hbs2 =>
        simp only []
        rw [getUser_setUser, if_pos hbs2.symm]
      · rw [getUser_setUser, if_pos rfl]
    · simp only [confirmResult]
      rw [getUser_setUser, if_pos rfl]
      simp only []
      rw [getUser_setUser]
      split
      · next hsb =>
        simp only []
        rw [hsb]
      · rfl
    · intro v hv1 hv2
      simp only [confirmResult]
      rw [getUser_setUser, if_neg hv2, getUser_setUser, if_neg hv1]
    · simp only [confirmResult]
      exact List.getElem?_set_self (lt_length_of_getElem? hlook)
    · intro j hj
      simp only [confirmResult]
      exact List.getElem?_set_ne (fun hc => hj hc.symm)

theorem C5_witness :
    demoD.orders[0]? = some (⟨1, 2, 0, 7, .SENT, some "t9"⟩ : Order) ∧
    (∃ s', order_detail demoD 1 0 "confirm_received" "" = .ok s' ∧
      (getUser s'.users 1).balance_frozen
        = (getUser demoD.users 1).balance_frozen - 7 ∧
      (getUser s'.users 2).balance_active
        = (getUser demoD.users 2).balance_active + 7 ∧
      (∀ v, v ≠ 1 → v ≠ 2 → getUser s'.users v = getUser demoD.users v) ∧
      s'.orders[0]? = some (⟨1, 2, 0, 7, .COMPLETED, some "t9"⟩ : Order) ∧
      (∀ j, j ≠ 0 → s'.orders[j]? = demoD.orders[j]?) ∧
      s'.listings = demoD.listings ∧ s'.deposits = demoD.deposits) :=
  ⟨by decide,
    (@C5_confirm_receipt demoD 1 0 "" ⟨1, 2, 0, 7, .SENT, some "t9"⟩
      (by decide)).2.2.2 rfl rfl⟩

/-- No committed operation can produce a DISPUTED order when none exists. -/
theorem applyOp_no_disputed {op : Op} {s s' : MarketState}
    (H : applyOp op s = some s')
    (hs : ∀ o ∈ s.orders, o.status ≠ .DISPUTED) :
    ∀ o ∈ s'.orders, o.status ≠ .DISPUTED := by
  obtain hevo | ⟨o, hPAID, hevo⟩ | ⟨k, o, t, hk, hPAID, hevo⟩ |
      ⟨k, o, hk, hSENT, hevo⟩ := applyOp_orders_evolution H
  · rw [hevo]; exact hs
  · rw [hevo]
    intro o' ho'
    rcases List.mem_append.mp ho' with hm | hm
    · exact hs o' hm
    · rcases List.mem_singleton.mp hm with rfl
      simp [hPAID]
  · rw [hevo]
    intro o' ho'
    rcases List.mem_or_eq_of_mem_set ho' with hm | rfl
    · exact hs o' hm
    · simp
  · rw [hevo]
    intro o' ho'
    rcases List.mem_or_eq_of_mem_set ho' with hm | rfl
    · exact hs o' hm
    · simp

/-- C8 counterexample: no operation of the code satisfies the RaiseDispute
specification — at the concrete SENT order of `demoD`, every operation either
fails or commits a state whose orders are still free of DISPUTED. -/
theorem C8_counterexample : ¬ ∃ f : Nat → Nat → Op, RaiseDisputeSpec f := by
  rintro ⟨f, hf⟩
  obtain ⟨s', o', happ, hlook, hdisp⟩ :=
    hf demoD 0 ⟨1, 2, 0, 7, .SENT, some "t9"⟩ 1 (by decide) rfl (.inl rfl)
  exact applyOp_no_disputed happ (by decide) o' (List.getElem?_mem hlook) hdisp

/-- C8 (amended): the code has no RaiseDispute operation; in every reachable
state no order is ever DISPUTED (nor RELEASED) — the two statuses are declared
on the Order model but unreachable through the exposed operations. -/
theorem C8_no_dispute_reachable {s : MarketState} (h : Reachable s) :
    ∀ o ∈ s.orders, o.status ≠ .DISPUTED ∧ o.status ≠ .RELEASED := by
  intro o ho
  rcases (reachable_inv h).status_ok o ho with h1 | h1 | h1 <;>
    rw [h1] <;> exact ⟨by decide, by decide⟩

theorem C8_witness :
    Reachable demoD ∧
    ((⟨1, 2, 0, 7, .SENT, some "t9"⟩ : Order) ∈ demoD.orders) ∧
    ((⟨1, 2, 0, 7, .SENT, some "t9"⟩ : Order).status ≠ .DISPUTED ∧
     (⟨1, 2, 0, 7, .SENT, some "t9"⟩ : Order).status ≠ .RELEASED) :=
  ⟨demoD_reachable, by decide,
    C8_no_dispute_reachable demoD_reachable ⟨1, 2, 0, 7, .SENT, some "t9"⟩
      (by decide)⟩
